import Mathlib

/-
Verification of the blackjack-game server core against its specification.

The JavaScript sources are shallowly embedded as Lean definitions:
mutable objects become immutable structures, in-place mutation becomes
functional update, thrown JavaScript exceptions become an explicit error
value, and JavaScript numbers become Nat (hand values), Int (indices)
or Rat (money amounts, which can become non-integral through the 1.5x
blackjack payout).
-/

set_option maxHeartbeats 1600000
set_option maxRecDepth 8000

/-! ## Card (src/src/server/game/Card.js) -/

/-- Embeds the Card class: suit, rank, numeric value and the hidden flag. -/
structure Card where
  suit : String
  rank : String
  value : Nat
  hidden : Bool
deriving DecidableEq, Repr

/-- Embeds Card.calculateValue: A is 11, J and Q and K are 10, the other
ranks parse as their digits. -/
def calculateValue (rank : String) : Nat :=
  if rank = "A" then 11
  else if rank = "J" ∨ rank = "Q" ∨ rank = "K" then 10
  else rank.toNat?.getD 0

/-- Embeds the Card constructor: the value field is computed from the rank
and the card starts visible. -/
def mkCard (suit rank : String) : Card :=
  { suit := suit, rank := rank, value := calculateValue rank, hidden := false }

/-- Embeds Card.setHidden. -/
def setHidden (c : Card) (h : Bool) : Card :=
  { c with hidden := h }

/-! ## Hand value (src/src/server/game/Player.js calculateHandValue;
the same algorithm appears verbatim as
GameState.calculateDealerHandValue in src/unnamed/part_013) -/

/-- Embeds the first pass of calculateHandValue: every card adds its value,
except that an ace adds 11 and is counted. Returns (running value, ace
count). -/
def handBaseValue : List Card → Nat × Nat
  | [] => (0, 0)
  | c :: cs =>
      let r := handBaseValue cs
      if c.rank = "A" then (r.1 + 11, r.2 + 1) else (r.1 + c.value, r.2)

/-- Embeds the adjustment loop of calculateHandValue: while the value
exceeds 21 and aces remain, one ace is downgraded from 11 to 1. -/
def adjustForAces : Nat → Nat → Nat
  | v, 0 => v
  | v, n + 1 => if 21 < v then adjustForAces (v - 10) n else v

/-- Embeds Player.calculateHandValue and (identically)
GameState.calculateDealerHandValue. -/
def calculateHandValue (hand : List Card) : Nat :=
  let s := handBaseValue hand
  adjustForAces s.1 s.2

/-- Specification-side quantity: the number of aces in a hand. -/
def aceCount (hand : List Card) : Nat :=
  (hand.filter (fun c => c.rank = "A")).length

/-- Specification-side quantity: the hand total with every ace counted
as 1 — the minimum over all ace assignments. -/
def lowTotal (hand : List Card) : Nat :=
  (hand.map (fun c => if c.rank = "A" then 1 else c.value)).sum

/-- Specification-side quantity: the hand total under an explicit choice
of counting each ace as 11 (true) or 1 (false); choices beyond the list
default to 1. -/
def assignedTotal : List Card → List Bool → Nat
  | [], _ => 0
  | c :: cs, [] => (if c.rank = "A" then 1 else c.value) + assignedTotal cs []
  | c :: cs, b :: bs =>
      (if c.rank = "A" then (if b then 11 else 1) else c.value) + assignedTotal cs bs

/-! ## Player (src/src/server/game/Player.js) -/

/-- Embeds the Player class fields: identity, connection state, hand,
derived hand value, status string, and the betting bookkeeping. -/
structure Player where
  id : String
  name : String
  socketId : String
  isConnected : Bool
  currentHand : List Card
  handValue : Nat
  status : String
  balance : ℚ
  currentBet : ℚ
  hasBet : Bool
deriving DecidableEq, Repr

/-- Embeds the Player constructor. -/
def mkPlayer (id name socketId : String) : Player :=
  { id := id, name := name, socketId := socketId, isConnected := true,
    currentHand := [], handValue := 0, status := "waiting",
    balance := 0, currentBet := 0, hasBet := false }

/-- Embeds Player.updateStatus: bust above 21, blackjack on a two-card 21,
otherwise unchanged. -/
def Player.updateStatus (p : Player) : Player :=
  if 21 < p.handValue then { p with status := "bust" }
  else if p.handValue = 21 ∧ p.currentHand.length = 2 then { p with status := "blackjack" }
  else p

/-- Embeds Player.addCard: push the card, recompute the hand value,
update the status. -/
def Player.addCard (p : Player) (c : Card) : Player :=
  let hand := p.currentHand ++ [c]
  Player.updateStatus { p with currentHand := hand, handValue := calculateHandValue hand }

/-- Embeds Player.setStatus. -/
def Player.setStatus (p : Player) (s : String) : Player :=
  { p with status := s }

/-- Embeds Player.resetHand (betting fields persist). -/
def Player.resetHand (p : Player) : Player :=
  { p with currentHand := [], handValue := 0, status := "waiting" }

/-- Embeds Player.canTakeAction: only a connected player whose status is
playing may act. -/
def Player.canTakeAction (p : Player) : Bool :=
  p.status = "playing" && p.isConnected

/-! ## BettingManager (src/src/server/BettingManager.js) -/

/-- Embeds the BettingManager INITIAL_BALANCE constant. -/
def INITIAL_BALANCE : ℚ := 1000

/-- Embeds the BettingManager MIN_BET constant. -/
def MIN_BET : ℚ := 1

/-- Embeds the BettingManager CHIP_DENOMINATIONS constant. -/
def CHIP_DENOMINATIONS : List Nat := [1, 5, 25, 100, 500, 1000, 5000]

/-- A JavaScript number argument as validateBet distinguishes them: NaN,
an infinity, or a finite value (embedded as a rational, which is exact for
the magnitudes this code handles). -/
inductive JSNum where
  | nan
  | posInf
  | negInf
  | fin (q : ℚ)
deriving DecidableEq

/-- A thrown JavaScript exception, embedded as an explicit error value. -/
inductive JsErr where
  | rangeError
  | referenceError
deriving DecidableEq, Repr

/-- Result of validateBet when no exception is thrown. -/
inductive BetCheck where
  | valid
  | invalid (reason : String)
deriving DecidableEq, Repr

/-- Embeds the dp array built by isValidChipCombination after i loop
iterations: entry 0 is true and entry i is true when some denomination
chip has chip at most i and entry (i - chip) true. -/
def dpTable : Nat → List Bool
  | 0 => [true]
  | i + 1 =>
      let t := dpTable i
      t ++ [CHIP_DENOMINATIONS.any (fun chip =>
        decide (chip ≤ i + 1) && t.getD (i + 1 - chip) false)]

/-- Embeds the value isValidChipCombination returns for a non-negative
integer amount: the dp entry at index amount. -/
def chipCombinationTable (amount : Nat) : Bool :=
  (dpTable amount).getD amount false

/-- Embeds BettingManager.isValidChipCombination on a finite amount. The
source allocates new Array(amount + 1), which throws a RangeError unless
amount + 1 is a valid JavaScript array length, that is, an integer in
[0, 2^32); otherwise the dp table decides reachability, and the one
in-domain out-of-range read (amount = -1, reading dp[-1]) yields the falsy
undefined, embedded as false. -/
def isValidChipCombination (amount : ℚ) : Except JsErr Bool :=
  if amount.den = 1 ∧ 0 ≤ amount.num + 1 ∧ amount.num + 1 < 2 ^ 32 then
    Except.ok (if 0 ≤ amount.num then chipCombinationTable amount.num.toNat else false)
  else Except.error JsErr.rangeError

/-- Embeds BettingManager.validateBet: the four checks in source order,
with a thrown RangeError from the chip-combination check surfaced as an
error value. -/
def validateBet (bet : JSNum) (playerBalance : ℚ) : Except JsErr BetCheck :=
  match bet with
  | JSNum.nan => Except.ok (BetCheck.invalid "Invalid bet amount format")
  | JSNum.posInf => Except.ok (BetCheck.invalid "Invalid bet amount format")
  | JSNum.negInf => Except.ok (BetCheck.invalid "Invalid bet amount format")
  | JSNum.fin q =>
      if q < MIN_BET then Except.ok (BetCheck.invalid "Bet must be at least $1")
      else if playerBalance < q then Except.ok (BetCheck.invalid "Insufficient balance")
      else
        match isValidChipCombination q with
        | Except.error e => Except.error e
        | Except.ok false => Except.ok (BetCheck.invalid "Invalid chip combination")
        | Except.ok true => Except.ok BetCheck.valid

/-- Embeds BettingManager.calculatePayout: 2.5x for blackjack, 2x for win,
1x for push, 0 for lose and for any unrecognized outcome. -/
def calculatePayout (betAmount : ℚ) (result : String) : ℚ :=
  if result = "blackjack" then betAmount + betAmount * (3 / 2)
  else if result = "win" then betAmount + betAmount
  else if result = "push" then betAmount
  else if result = "lose" then 0
  else 0

/-- Embeds BettingManager.updateBalance: add the payout to the balance and
clear the wager state. -/
def updateBalance (p : Player) (payout : ℚ) : Player :=
  { p with balance := p.balance + payout, currentBet := 0, hasBet := false }

/-- Embeds BettingManager.initializePlayerBalance. -/
def initPlayerBalance (p : Player) : Player :=
  { p with balance := INITIAL_BALANCE, currentBet := 0, hasBet := false }

/-- The concrete wager amount 1.5 (given as an explicit rational literal
so that concrete evaluation reduces), used as a counterexample input. -/
def threeHalves : ℚ := ⟨3, 2, by norm_num, by norm_num⟩

/-- Specification-side predicate: the amount is a non-negative integer
combination of the denomination set 1, 5, 25, 100, 500, 1000, 5000. -/
def Representable (q : ℚ) : Prop :=
  ∃ a b c d e f g : Nat,
    q = (a : ℚ) * 1 + (b : ℚ) * 5 + (c : ℚ) * 25 + (d : ℚ) * 100 +
        (e : ℚ) * 500 + (f : ℚ) * 1000 + (g : ℚ) * 5000

/-! ## Deck (src/src/server/game/Deck.js) -/

/-- Embeds Deck.dealCard. The source draws with cards.pop(); the embedding
keeps the deck listed in draw order, so drawing takes the head. The
shuffled order produced by the Deck constructor and reset is random; the
embedding takes the resulting draw-order permutation as a parameter
wherever the source creates or resets a deck. -/
def dealCardFromDeck : List Card → Option (Card × List Card)
  | [] => none
  | c :: rest => some (c, rest)

/-! ## GameState (src/unnamed/part_013, class GameState) -/

/-- Embeds the dealer sub-object of GameState: hand, status string and the
stored hand value. -/
structure DealerState where
  hand : List Card
  status : String
  handValue : Nat
deriving DecidableEq, Repr

/-- Embeds one entry of gameState.payouts as recorded by
GameEngine.determineWinners. -/
structure PayoutEntry where
  playerId : String
  betAmount : ℚ
  outcome : String
  payout : ℚ
  newBalance : ℚ
deriving DecidableEq, Repr

/-- Embeds the GameState class fields used by the game logic. -/
structure GameState where
  roomId : String
  status : String
  players : List Player
  dealer : DealerState
  deck : List Card
  currentPlayerIndex : Int
  winners : List String
  payouts : List PayoutEntry
deriving DecidableEq, Repr

/-- Embeds the GameState constructor; the shuffled deck produced by new
Deck() is passed in as its draw-order permutation. -/
def mkGameState (roomId : String) (deck : List Card) : GameState :=
  { roomId := roomId, status := "waiting", players := [],
    dealer := { hand := [], status := "waiting", handValue := 0 },
    deck := deck, currentPlayerIndex := 0, winners := [], payouts := [] }

/-- Embeds GameState.getPlayer. -/
def GameState.getPlayer (gs : GameState) (pid : String) : Option Player :=
  gs.players.find? (fun p => p.id = pid)

/-- Embeds GameState.addPlayer. -/
def GameState.addPlayer (gs : GameState) (p : Player) : GameState :=
  { gs with players := gs.players ++ [p] }

/-- Embeds GameState.getCurrentPlayer: the player at currentPlayerIndex
when that index is in range, otherwise none. -/
def GameState.getCurrentPlayer (gs : GameState) : Option Player :=
  if 0 ≤ gs.currentPlayerIndex ∧ gs.currentPlayerIndex < gs.players.length then
    gs.players.get? gs.currentPlayerIndex.toNat
  else none

/-- Embeds GameState.nextPlayer: increment currentPlayerIndex by one;
the result is none when the new index is past the end. -/
def GameState.nextPlayer (gs : GameState) : GameState × Option Player :=
  let gs2 := { gs with currentPlayerIndex := gs.currentPlayerIndex + 1 }
  if (gs2.players.length : Int) ≤ gs2.currentPlayerIndex then (gs2, none)
  else (gs2, gs2.getCurrentPlayer)

/-- Replaces the player holding the given id, embedding in-place mutation
of the player object shared between gameState.players and its callers. -/
def updatePlayer (players : List Player) (pid : String) (f : Player → Player) : List Player :=
  players.map (fun p => if p.id = pid then f p else p)

/-- Embeds GameState.startGame: playing status, cursor 0, cleared winners,
deck reset (the fresh shuffle passed as a parameter), every player's hand
reset and status set to playing, dealer cleared. -/
def GameState.startGame (gs : GameState) (freshDeck : List Card) : GameState :=
  { gs with
    status := "playing",
    currentPlayerIndex := 0,
    winners := [],
    deck := freshDeck,
    players := gs.players.map (fun p => (p.resetHand).setStatus "playing"),
    dealer := { hand := [], status := "waiting", handValue := 0 } }

/-- Deals one round of cards to the players in seating order, embedding
the players.forEach body of dealInitialCards: a player is skipped only if
the deck has run out. -/
def dealRoundToPlayers (players : List Player) (deck : List Card) : List Player × List Card :=
  players.foldl (fun acc p =>
    match dealCardFromDeck acc.2 with
    | none => (acc.1 ++ [p], acc.2)
    | some (c, d2) => (acc.1 ++ [p.addCard c], d2)) ([], deck)

/-- Deals one card to the dealer, embedding the dealer part of the
dealInitialCards loop body; the second-round card is marked hidden. -/
def dealDealerCard (dealerHand : List Card) (deck : List Card) (hide : Bool) :
    List Card × List Card :=
  match dealCardFromDeck deck with
  | none => (dealerHand, deck)
  | some (c, d2) => (dealerHand ++ [if hide then setHidden c true else c], d2)

/-- Number of leading players in a list that cannot take an action. -/
def skipCount : List Player → Nat
  | [] => 0
  | p :: ps => if p.canTakeAction then 0 else 1 + skipCount ps

/-- Embeds the cursor-advance while loop at the end of dealInitialCards,
phrased structurally: starting at index i, the cursor lands on the first
index at or after i whose player can take an action, or on players.length
when none can. -/
def firstActionableFrom (players : List Player) (i : Nat) : Nat :=
  i + skipCount (players.drop i)

/-- Embeds GameState.dealInitialCards: two rounds of one card to each
player then one to the dealer (the second dealer card hidden), recompute
the dealer hand value, then advance the cursor past players who cannot
act. -/
def GameState.dealInitialCards (gs : GameState) : GameState :=
  let r1 := dealRoundToPlayers gs.players gs.deck
  let rd1 := dealDealerCard gs.dealer.hand r1.2 false
  let r2 := dealRoundToPlayers r1.1 rd1.2
  let rd2 := dealDealerCard rd1.1 r2.2 true
  let dealer := { gs.dealer with hand := rd2.1, handValue := calculateHandValue rd2.1 }
  let idx := firstActionableFrom r2.1 gs.currentPlayerIndex.toNat
  { gs with
    players := r2.1,
    dealer := dealer,
    deck := rd2.2,
    currentPlayerIndex := (idx : Int) }

/-- Embeds GameState.addCardToDealer: push the card and recompute the
stored dealer hand value. -/
def GameState.addCardToDealer (gs : GameState) (c : Card) : GameState :=
  let hand := gs.dealer.hand ++ [c]
  { gs with dealer := { gs.dealer with hand := hand, handValue := calculateHandValue hand } }

/-- Embeds GameState.revealDealerCard: clear every hidden flag and
recompute the stored dealer hand value. -/
def GameState.revealDealerCard (gs : GameState) : GameState :=
  let hand := gs.dealer.hand.map (fun c => setHidden c false)
  { gs with dealer := { gs.dealer with hand := hand, handValue := calculateHandValue hand } }

/-- Embeds GameState.areAllPlayersDone: every player stands, busted or has
blackjack. -/
def GameState.areAllPlayersDone (gs : GameState) : Bool :=
  gs.players.all (fun p => p.status = "stand" || p.status = "bust" || p.status = "blackjack")

/-- The zero-or-one winner entries one player contributes in
GameState.determineWinners: a busted player contributes nothing, every
non-busted player wins when the dealer busts, otherwise a player wins
exactly when strictly above the dealer value (a tie pushes and contributes
nothing). -/
def winnerEntry (dealerValue : Nat) (p : Player) : List String :=
  if p.status = "bust" then []
  else if 21 < dealerValue then [p.id]
  else if dealerValue < p.handValue then [p.id]
  else []

/-- Embeds GameState.determineWinners: reset winners, then the forEach
push loop over the players in order. -/
def GameState.determineWinners (gs : GameState) : GameState :=
  let ws := gs.players.foldl (fun acc p => acc ++ winnerEntry gs.dealer.handValue p) []
  { gs with winners := ws }

/-- Embeds GameState.endGame: finished status for the game and the dealer,
then winner determination. -/
def GameState.endGame (gs : GameState) : GameState :=
  GameState.determineWinners
    { gs with status := "finished", dealer := { gs.dealer with status := "finished" } }

/-! ## DealerAI (src/src/client/js/game.js, class DealerAI; hitThreshold
is 17) -/

/-- Embeds DealerAI.shouldHit: hit strictly below the threshold 17. -/
def shouldHit (handValue : Nat) : Bool :=
  handValue < 17

/-- Embeds the draw loop of DealerAI.playDealerTurn: while shouldHit,
draw (stopping if the deck is exhausted), append, recompute; a draw beyond
21 sets the bust flag and stops. Returns (hand, remaining deck, busted). -/
def dealerDraw : List Card → List Card → List Card × List Card × Bool
  | hand, [] => (hand, [], false)
  | hand, c :: rest =>
      if shouldHit (calculateHandValue hand) then
        let hand2 := hand ++ [c]
        if 21 < calculateHandValue hand2 then (hand2, rest, true)
        else dealerDraw hand2 rest
      else (hand, c :: rest, false)

/-- Embeds DealerAI.playDealerTurn: reveal the hidden card, run the draw
loop, mark bust inside the loop, and stand afterwards whenever the final
value is at most 21. -/
def playDealerTurn (gs : GameState) : GameState :=
  let gs1 := gs.revealDealerCard
  let r := dealerDraw gs1.dealer.hand gs1.deck
  let value := calculateHandValue r.1
  let st1 := if r.2.2 then "bust" else gs1.dealer.status
  let st2 := if value ≤ 21 then "stand" else st1
  { gs1 with deck := r.2.1, dealer := { hand := r.1, status := st2, handValue := value } }

/-! ## GameEngine (src/src/server/GameEngine.js) -/

/-- Embeds GameEngine.processStand for a validated player: set the player
standing and advance the cursor with nextPlayer. -/
def processStand (gs : GameState) (pid : String) : GameState :=
  let gs1 := { gs with players := updatePlayer gs.players pid (fun p => p.setStatus "stand") }
  (gs1.nextPlayer).1

/-- Embeds GameEngine.processHit for a validated player: draw a card (a
failure message and no state change when the deck is empty), add it to the
hand; on bust advance the cursor, on exactly 21 auto-stand and advance,
otherwise leave the cursor alone. The returned string is the result
message. -/
def processHit (gs : GameState) (pid : String) : GameState × String :=
  match dealCardFromDeck gs.deck with
  | none => (gs, "No cards left in deck")
  | some (c, d2) =>
      match gs.getPlayer pid with
      | none => (gs, "Card dealt")
      | some p =>
          let p2 := p.addCard c
          let gs1 := { gs with deck := d2, players := updatePlayer gs.players pid (fun _ => p2) }
          if p2.status = "bust" then ((gs1.nextPlayer).1, "Player busted")
          else if p2.handValue = 21 then
            let gs2 := { gs1 with
              players := updatePlayer gs1.players pid (fun _ => p2.setStatus "stand") }
            ((gs2.nextPlayer).1, "Player reached 21 and stands automatically")
          else (gs1, "Card dealt")

/-- The per-player settlement step of GameEngine.determineWinners for a
player with a positive committed wager: classify the outcome, compute the
payout and the displayed net winnings, apply updateBalance (which zeroes
currentBet), and only then build the record — whose betAmount field
therefore reads the already-zeroed currentBet, mirroring the source
ordering. -/
def settlePlayer (winners : List String) (dealer : DealerState) (p : Player) :
    Player × Option PayoutEntry :=
  if 0 < p.currentBet then
    let isWinner := winners.contains p.id
    let result :=
      if p.status = "bust" then "lose"
      else if p.status = "blackjack" && isWinner then "blackjack"
      else if isWinner then "win"
      else if p.handValue = dealer.handValue && !(dealer.status = "bust") then "push"
      else "lose"
    let payoutAmount := calculatePayout p.currentBet result
    let actualWinnings :=
      if result = "lose" then -p.currentBet
      else if result = "push" then 0
      else payoutAmount - p.currentBet
    let p2 := updateBalance p payoutAmount
    (p2, some { playerId := p2.id, betAmount := p2.currentBet, outcome := result,
                payout := actualWinnings, newBalance := p2.balance })
  else (p, none)

/-- Embeds GameEngine.determineWinners: end the game (which computes the
winner list), then settle every wagered player in order, storing the
payout records on the game state. -/
def engineDetermineWinners (gs : GameState) : GameState :=
  let gs1 := GameState.endGame gs
  let step := gs1.players.foldl (fun (acc : List Player × List PayoutEntry) p =>
    let r := settlePlayer gs1.winners gs1.dealer p
    (acc.1 ++ [r.1], acc.2 ++ r.2.toList)) ([], [])
  { gs1 with players := step.1, payouts := step.2 }

/-- Embeds the trigger condition at src/src/server/BettingManager.js line
865 (WebSocketHandler.handlePlaceBet): after the automatic game start once
every player has wagered, the dealer turn is scheduled immediately only if
gameState.currentPlayerIndex equals -1. -/
def allBlackjackDealerTrigger (gs : GameState) : Bool :=
  gs.currentPlayerIndex = -1

/-- Embeds GameState.removePlayer: remove the first player carrying the
id; the flag reports whether one was found. -/
def removeFirstById : List Player → String → List Player
  | [], _ => []
  | p :: ps, pid => if p.id = pid then ps else p :: removeFirstById ps pid

/-- Embeds GameState.removePlayer (findIndex and splice). -/
def GameState.removePlayer (gs : GameState) (pid : String) : GameState × Bool :=
  if (gs.players.find? (fun p => p.id = pid)).isSome then
    ({ gs with players := removeFirstById gs.players pid }, true)
  else (gs, false)

/-! ## Room (src/unnamed/part_013, class Room) -/

/-- Embeds the Room class fields used by the game and registry logic. -/
structure Room where
  id : String
  name : String
  maxPlayers : Nat
  gameState : GameState
  isGameInProgress : Bool
deriving DecidableEq, Repr

/-- Embeds the Room constructor; the shuffled deck of the new GameState is
passed as its draw-order permutation. -/
def mkRoom (id name : String) (maxPlayers : Nat) (deck : List Card) : Room :=
  { id := id, name := name, maxPlayers := maxPlayers,
    gameState := mkGameState id deck, isGameInProgress := false }

/-- Embeds Room.addPlayer: refuse when the room is full, when a game is in
progress, or when the player id is already present; otherwise append. -/
def Room.addPlayer (r : Room) (p : Player) : Option Room :=
  if r.maxPlayers ≤ r.gameState.players.length then none
  else if r.isGameInProgress then none
  else if (r.gameState.getPlayer p.id).isSome then none
  else some { r with gameState := r.gameState.addPlayer p }

/-- Embeds Room.resetGame: a fresh game state (its new shuffled deck
passed as a parameter) with the current players re-added after a hand and
wager reset. -/
def Room.resetGame (r : Room) (freshDeck : List Card) : Room :=
  { r with
    isGameInProgress := false,
    gameState := r.gameState.players.foldl
      (fun gs p => gs.addPlayer { p.resetHand with hasBet := false, currentBet := 0 })
      (mkGameState r.id freshDeck) }

/-- Embeds Room.removePlayer: delegate to the game state and, when the
room empties while a game was in progress, reset the game (the fresh deck
of the reset passed as a parameter). -/
def Room.removePlayer (r : Room) (pid : String) (freshDeck : List Card) : Room × Bool :=
  let res := r.gameState.removePlayer pid
  if res.2 then
    let r1 := { r with gameState := res.1 }
    if r1.gameState.players.length = 0 ∧ r1.isGameInProgress then
      (r1.resetGame freshDeck, true)
    else (r1, true)
  else (r, false)

/-- Embeds Room.startBettingPhase: needs at least one player and no game
in progress; sets only gameState.status to betting — it does not set
isGameInProgress. -/
def Room.startBettingPhase (r : Room) : Room × Bool :=
  if r.gameState.players.length = 0 then (r, false)
  else if r.isGameInProgress then (r, false)
  else ({ r with gameState := { r.gameState with status := "betting" } }, true)

/-- Embeds Room.allPlayersHaveBet. -/
def Room.allPlayersHaveBet (r : Room) : Bool :=
  if r.gameState.players.length = 0 then false
  else r.gameState.players.all (fun p => p.hasBet)

/-- Embeds Room.startGame: needs players, no game in progress, and every
player wagered; marks the game in progress, starts the game state (fresh
shuffle passed as a parameter) and deals the initial cards. -/
def Room.startGame (r : Room) (freshDeck : List Card) : Room × Bool :=
  if r.gameState.players.length = 0 then (r, false)
  else if r.isGameInProgress then (r, false)
  else if !r.allPlayersHaveBet then (r, false)
  else
    let gs1 := (r.gameState.startGame freshDeck).dealInitialCards
    ({ r with isGameInProgress := true, gameState := gs1 }, true)

/-- Concrete settled-round state for the settlement-record claim: one
participant who wagered 100, stood at 19 against a standing dealer 18. -/
def gsC1 : GameState :=
  { mkGameState "room1" [] with
    status := "playing",
    players := [{ mkPlayer "p1" "Alice" "s1" with
                  status := "stand", handValue := 19,
                  balance := 900, currentBet := 100, hasBet := true }],
    dealer := { hand := [], status := "stand", handValue := 18 } }

/-- Draw-order deck for the all-blackjack deal: the single participant
receives the ace and the king (cards one and three), the dealer the five
and the nine. -/
def deckC3 : List Card :=
  [{ suit := "spades", rank := "A", value := 11, hidden := false },
   { suit := "clubs", rank := "5", value := 5, hidden := false },
   { suit := "hearts", rank := "K", value := 10, hidden := false },
   { suit := "diamonds", rank := "9", value := 9, hidden := false }]

/-- Concrete room in the betting phase whose single participant has
wagered, ready for the automatic game start. -/
def roomC3 : Room :=
  { id := "room1", name := "Room 1", maxPlayers := 6,
    isGameInProgress := false,
    gameState := { mkGameState "room1" deckC3 with
      status := "betting",
      players := [{ mkPlayer "p1" "Alice" "s1" with
                    balance := 900, currentBet := 100, hasBet := true }] } }

/-- Concrete game state used to instantiate the dealer-turn theorem: the
dealer shows a 10 with a concealed 6 (value 16) and the shoe holds a 5. -/
def gsW8 : GameState :=
  { mkGameState "room1" [{ suit := "clubs", rank := "5", value := 5, hidden := false }] with
    dealer := { hand := [{ suit := "hearts", rank := "10", value := 10, hidden := false },
                         { suit := "spades", rank := "6", value := 6, hidden := true }],
                status := "waiting", handValue := 16 } }

/-- Concrete game state used to instantiate the busted-player theorem: a
busted player alongside a standing one, with the dealer also busted. -/
def gsC5 : GameState :=
  { mkGameState "room1" [] with
    status := "playing",
    players := [{ mkPlayer "a" "Alice" "s1" with status := "bust", handValue := 22 },
                { mkPlayer "b" "Bob" "s2" with status := "stand", handValue := 20 }],
    dealer := { hand := [], status := "bust", handValue := 22 } }

/-- Concrete game state for the turn-cursor claims: the participant at the
cursor is about to finish while the next seat holds a participant with a
dealt natural 21 (who cannot act) and the seat after that a participant
who still can. -/
def gsC4 : GameState :=
  { mkGameState "room1" [] with
    status := "playing",
    players := [{ mkPlayer "a" "Alice" "s1" with status := "playing", handValue := 19 },
                { mkPlayer "b" "Bob" "s2" with status := "blackjack", handValue := 21 },
                { mkPlayer "c" "Carl" "s3" with status := "playing", handValue := 12 }] }

/-- Concrete game state for the hit-to-bust cursor witness: the single
player holds 19 and the shoe top card is a 5, so a hit busts. -/
def gsW4 : GameState :=
  { mkGameState "room1" [{ suit := "clubs", rank := "5", value := 5, hidden := false }] with
    status := "playing",
    players := [{ mkPlayer "a" "Alice" "s1" with
                  status := "playing", handValue := 19,
                  currentHand := [{ suit := "hearts", rank := "10", value := 10, hidden := false },
                                  { suit := "spades", rank := "9", value := 9, hidden := false }] }] }

/-- Concrete room holding one seated participant and no game in progress,
about to enter the betting phase. -/
def roomC9 : Room :=
  { mkRoom "room1" "Room 1" 6 [] with
    gameState := { mkGameState "room1" [] with players := [mkPlayer "p1" "Alice" "s1"] } }

/-! ## RoomManager (src/src/server/GameEngine.js, class RoomManager) -/

/-- Embeds JavaScript Map.get: the value at the first entry carrying the
key. -/
def mapGet {α : Type} : List (String × α) → String → Option α
  | [], _ => none
  | e :: t, k => if e.1 = k then some e.2 else mapGet t k

/-- Embeds JavaScript Map.delete: drop the entries carrying the key. -/
def mapDelete {α : Type} : List (String × α) → String → List (String × α)
  | [], _ => []
  | e :: t, k => if e.1 = k then mapDelete t k else e :: mapDelete t k

/-- Embeds JavaScript Map.set: bind the key to the value. Entries are kept
with distinct keys, so get, has and size behave as in the source; only
iteration order differs, which nothing in the embedded code observes. -/
def mapSet {α : Type} (m : List (String × α)) (k : String) (v : α) : List (String × α) :=
  (k, v) :: mapDelete m k

/-- Embeds the RoomManager class fields: the room map, the two capacity
bounds, and the player-to-room tracking map. -/
structure RoomManager where
  rooms : List (String × Room)
  maxRooms : Nat
  maxPlayersPerRoom : Nat
  playerRoomMap : List (String × String)
deriving DecidableEq, Repr

/-- Embeds the RoomManager constructor (default bounds 10 and 6). -/
def mkRoomManager (maxRooms maxPlayersPerRoom : Nat) : RoomManager :=
  { rooms := [], maxRooms := maxRooms, maxPlayersPerRoom := maxPlayersPerRoom,
    playerRoomMap := [] }

/-- Embeds RoomManager.createRoom: return an existing room unchanged, fail
(none) at the room bound, otherwise insert a fresh room (its shuffled deck
passed as a parameter). -/
def RoomManager.createRoom (m : RoomManager) (roomId roomName : String) (deck : List Card) :
    RoomManager × Option Room :=
  match mapGet m.rooms roomId with
  | some r => (m, some r)
  | none =>
      if m.maxRooms ≤ m.rooms.length then (m, none)
      else
        let room := mkRoom roomId roomName m.maxPlayersPerRoom deck
        ({ m with rooms := mapSet m.rooms roomId room }, some room)

/-- Embeds RoomManager.addPlayerToRoom. When the tracking map already
binds the player to the same room, the source reaches the reconnection
return whose object literal reads the const room declared only further
down the function body — a temporal-dead-zone access that throws a
ReferenceError before any state changes; it is embedded as the
referenceError value. On the normal path a zero-balance player is
initialized, the room seat is attempted, and only on success are the room
and the tracking map updated. -/
def RoomManager.addPlayerToRoom (m : RoomManager) (roomId : String) (p : Player) :
    Except JsErr (RoomManager × Bool × String) :=
  if roomId = "" then Except.ok (m, false, "Invalid room ID")
  else if p.id = "" then Except.ok (m, false, "Invalid player object")
  else
    match mapGet m.playerRoomMap p.id with
    | some currentRoomId =>
        if currentRoomId ≠ roomId then
          Except.ok (m, false, "Player is already in another room")
        else Except.error JsErr.referenceError
    | none =>
        match mapGet m.rooms roomId with
        | none => Except.ok (m, false, "Room not found")
        | some room =>
            let p1 := if p.balance = 0 then initPlayerBalance p else p
            match room.addPlayer p1 with
            | some room1 =>
                Except.ok ({ m with
                  rooms := mapSet m.rooms roomId room1,
                  playerRoomMap := mapSet m.playerRoomMap p1.id roomId }, true,
                  "Player added to room")
            | none =>
                Except.ok (m, false,
                  "Failed to add player to room (room full or game in progress)")

/-- Embeds RoomManager.removePlayerFromRoom: validate, delegate to the
room (writing the mutated room back) and clear the tracking entry on
success. -/
def RoomManager.removePlayerFromRoom (m : RoomManager) (roomId pid : String)
    (freshDeck : List Card) : RoomManager × Bool :=
  if roomId = "" then (m, false)
  else if pid = "" then (m, false)
  else
    match mapGet m.rooms roomId with
    | none => (m, false)
    | some room =>
        let res := room.removePlayer pid freshDeck
        if res.2 then
          ({ m with
             rooms := mapSet m.rooms roomId res.1,
             playerRoomMap := mapDelete m.playerRoomMap pid }, true)
        else (m, false)

/-- Embeds RoomManager.deleteRoom: clear the tracking entries of every
occupant, then remove the room. -/
def RoomManager.deleteRoom (m : RoomManager) (roomId : String) : RoomManager × Bool :=
  match mapGet m.rooms roomId with
  | none => (m, false)
  | some room =>
      ({ m with
         playerRoomMap := room.gameState.players.foldl
           (fun mp p => mapDelete mp p.id) m.playerRoomMap,
         rooms := mapDelete m.rooms roomId }, true)

/-- One registry operation, as named in the claim: createRoom,
addPlayerToRoom, removePlayerFromRoom, deleteRoom. Random shuffles that
the operations may create are carried as parameters. -/
inductive RegOp where
  | create (roomId roomName : String) (deck : List Card)
  | seat (roomId : String) (p : Player)
  | unseat (roomId pid : String) (freshDeck : List Card)
  | drop (roomId : String)
deriving Repr

/-- Applies one registry operation to the manager state; a thrown
ReferenceError aborts addPlayerToRoom before it mutates anything, so the
state is kept. -/
def applyOp (m : RoomManager) : RegOp → RoomManager
  | RegOp.create roomId roomName deck => (m.createRoom roomId roomName deck).1
  | RegOp.seat roomId p =>
      match m.addPlayerToRoom roomId p with
      | Except.ok r => r.1
      | Except.error _ => m
  | RegOp.unseat roomId pid freshDeck => (m.removePlayerFromRoom roomId pid freshDeck).1
  | RegOp.drop roomId => (m.deleteRoom roomId).1

/-- Runs a sequence of registry operations from a manager state. -/
def applyOps (m : RoomManager) (ops : List RegOp) : RoomManager :=
  ops.foldl applyOp m

/-- Specification-side predicate: the participant id is currently seated
in the room registered under the given room id. -/
def seatedIn (m : RoomManager) (pid rid : String) : Prop :=
  ∃ room, mapGet m.rooms rid = some room ∧ ∃ p ∈ room.gameState.players, p.id = pid

/-- The registry invariant: every tracking entry points at a room that
seats the participant, every seated participant is tracked to exactly that
room, and seats within one room carry distinct ids. -/
def RegInv (m : RoomManager) : Prop :=
  (∀ pid rid, mapGet m.playerRoomMap pid = some rid →
     ∃ room, mapGet m.rooms rid = some room ∧ ∃ p ∈ room.gameState.players, p.id = pid) ∧
  (∀ rid room, mapGet m.rooms rid = some room →
     ∀ p ∈ room.gameState.players, mapGet m.playerRoomMap p.id = some rid) ∧
  (∀ rid room, mapGet m.rooms rid = some room →
     (room.gameState.players.map Player.id).Nodup)

/-- Manager after creating one room: the first step of the concrete
rejoin scenario. -/
def mgrC10 : RoomManager :=
  ((mkRoomManager 10 6).createRoom "room1" "Room 1" []).1

/-- Manager after the player p1 joined room1: the second step of the
concrete rejoin scenario. -/
def mgrC10b : RoomManager :=
  applyOp mgrC10 (RegOp.seat "room1" (mkPlayer "p1" "Alice" "s1"))

/-- Concrete operation sequence over two rooms: both are created and the
player p1 takes a seat in the first. -/
def opsC2 : List RegOp :=
  [RegOp.create "r1" "Room 1" [], RegOp.create "r2" "Room 2" [],
   RegOp.seat "r1" (mkPlayer "p1" "Alice" "s1")]

/-! ## Theorems -/

theorem aceCount_nil : aceCount [] = 0 := rfl

theorem aceCount_cons (c : Card) (cs : List Card) :
    aceCount (c :: cs) = (if c.rank = "A" then 1 else 0) + aceCount cs := by
  by_cases h : c.rank = "A" <;> simp [aceCount, List.filter_cons, h, Nat.add_comm]

theorem lowTotal_nil : lowTotal [] = 0 := rfl

theorem lowTotal_cons (c : Card) (cs : List Card) :
    lowTotal (c :: cs) = (if c.rank = "A" then 1 else c.value) + lowTotal cs := by
  simp [lowTotal]

theorem handBaseValue_eq (hand : List Card) :
    handBaseValue hand = (lowTotal hand + 10 * aceCount hand, aceCount hand) := by
  induction hand with
  | nil => simp [handBaseValue, lowTotal_nil, aceCount_nil]
  | cons c cs ih =>
      by_cases h : c.rank = "A" <;>
        simp [handBaseValue, lowTotal_cons, aceCount_cons, ih, h, Prod.ext_iff] <;> omega

theorem adjustForAces_spec (m : Nat) : ∀ n : Nat,
    ∃ k ≤ n, adjustForAces (m + 10 * n) n = m + 10 * k ∧
      (∀ j ≤ n, m + 10 * j ≤ 21 → j ≤ k) ∧
      (m + 10 * k ≤ 21 ∨ k = 0) := by
  intro n
  induction n with
  | zero => exact ⟨0, le_refl 0, by simp [adjustForAces], fun j hj _ => hj, Or.inr rfl⟩
  | succ n ih =>
      by_cases h : 21 < m + 10 * (n + 1)
      · obtain ⟨k, hk, hval, hmax, hok⟩ := ih
        refine ⟨k, Nat.le_succ_of_le hk, ?_, ?_, hok⟩
        · have : m + 10 * (n + 1) - 10 = m + 10 * n := by omega
          simp only [adjustForAces, if_pos h, this, hval]
        · intro j hj hle
          rcases Nat.lt_or_ge j (n + 1) with hlt | hge
          · exact hmax j (Nat.lt_succ_iff.mp hlt) hle
          · omega
      · refine ⟨n + 1, le_refl _, ?_, fun j hj _ => hj, Or.inl (by omega)⟩
        simp only [adjustForAces, if_neg h]

theorem assignedTotal_exists_k (hand : List Card) (bs : List Bool) :
    ∃ k ≤ aceCount hand, assignedTotal hand bs = lowTotal hand + 10 * k := by
  induction hand generalizing bs with
  | nil => exact ⟨0, Nat.le_refl 0, by cases bs <;> simp [assignedTotal, lowTotal_nil]⟩
  | cons c cs ih =>
      obtain ⟨bv, bs', hbs'⟩ : ∃ (bv : Bool) (t : List Bool), assignedTotal (c :: cs) bs =
          (if c.rank = "A" then (if bv = true then 11 else 1)
            else c.value) + assignedTotal cs t := by
        cases bs with
        | nil => exact ⟨false, [], by simp [assignedTotal]⟩
        | cons b bs' => exact ⟨b, bs', by simp [assignedTotal]⟩
      obtain ⟨k, hk, hval⟩ := ih bs'
      by_cases h : c.rank = "A"
      · cases bv with
        | true =>
            refine ⟨k + 1, ?_, ?_⟩
            · rw [aceCount_cons]; simp [h]; omega
            · rw [hbs', hval, lowTotal_cons]; simp [h]; ring
        | false =>
            refine ⟨k, ?_, ?_⟩
            · rw [aceCount_cons]; simp [h]; omega
            · rw [hbs', hval, lowTotal_cons]; simp [h]; ring
      · refine ⟨k, ?_, ?_⟩
        · rw [aceCount_cons]; simpa [h] using hk
        · rw [hbs', hval, lowTotal_cons]; simp [h]; ring

theorem assignedTotal_realizes_k (hand : List Card) :
    ∀ k ≤ aceCount hand, ∃ bs, assignedTotal hand bs = lowTotal hand + 10 * k := by
  induction hand with
  | nil =>
      intro k hk
      rw [aceCount_nil] at hk
      interval_cases k
      exact ⟨[], by simp [assignedTotal, lowTotal_nil]⟩
  | cons c cs ih =>
      intro k hk
      rw [aceCount_cons] at hk
      by_cases h : c.rank = "A"
      · cases k with
        | zero =>
            obtain ⟨bs, hbs⟩ := ih 0 (Nat.zero_le _)
            refine ⟨false :: bs, ?_⟩
            rw [lowTotal_cons]; simp [assignedTotal, h, hbs]
        | succ k' =>
            have hk' : k' ≤ aceCount cs := by simp [h] at hk; omega
            obtain ⟨bs, hbs⟩ := ih k' hk'
            refine ⟨true :: bs, ?_⟩
            rw [lowTotal_cons]; simp [assignedTotal, h, hbs]; ring
      · have hk' : k ≤ aceCount cs := by simpa [h] using hk
        obtain ⟨bs, hbs⟩ := ih k hk'
        refine ⟨false :: bs, ?_⟩
        rw [lowTotal_cons]; simp [assignedTotal, h, hbs]; ring

/-- C7: for every hand, calculateHandValue is realized by some assignment
of 1 or 11 to each ace, no assignment whose total stays at most 21 exceeds
it, and when it exceeds 21 it equals the all-aces-low minimum total. -/
theorem calculateHandValue_ace_maximal (hand : List Card) :
    (∃ bs, calculateHandValue hand = assignedTotal hand bs) ∧
    (∀ bs, assignedTotal hand bs ≤ 21 →
      assignedTotal hand bs ≤ calculateHandValue hand) ∧
    (21 < calculateHandValue hand → calculateHandValue hand = lowTotal hand) := by
  obtain ⟨k, hk, hval, hmax, hok⟩ := adjustForAces_spec (lowTotal hand) (aceCount hand)
  have hcv : calculateHandValue hand = lowTotal hand + 10 * k := by
    simpa [calculateHandValue, handBaseValue_eq] using hval
  refine ⟨?_, ?_, ?_⟩
  · obtain ⟨bs, hbs⟩ := assignedTotal_realizes_k hand k hk
    exact ⟨bs, by rw [hcv, hbs]⟩
  · intro bs hle
    obtain ⟨j, hj, hjval⟩ := assignedTotal_exists_k hand bs
    have : j ≤ k := hmax j hj (by omega)
    omega
  · intro hgt
    rcases hok with h | h
    · omega
    · simp [hcv, h]

theorem dpTable_replicate : ∀ n, dpTable n = List.replicate (n + 1) true := by
  intro n
  induction n with
  | zero => rfl
  | succ i ih =>
      rw [dpTable, ih]
      have hentry : CHIP_DENOMINATIONS.any (fun chip =>
          decide (chip ≤ i + 1) && (List.replicate (i + 1) true).getD (i + 1 - chip) false)
            = true := by
        apply List.any_eq_true.mpr
        refine ⟨1, by simp [CHIP_DENOMINATIONS], ?_⟩
        simp [List.getD, List.getElem?_replicate]
      rw [hentry]
      simp [List.replicate_succ']

theorem chipCombinationTable_true (n : Nat) : chipCombinationTable n = true := by
  simp [chipCombinationTable, dpTable_replicate, List.getD, List.getElem?_replicate]

theorem representable_of_nat (n : Nat) : Representable (n : ℚ) :=
  ⟨n, 0, 0, 0, 0, 0, 0, by push_cast; ring⟩

theorem representable_is_nat {q : ℚ} (h : Representable q) : ∃ n : Nat, q = (n : ℚ) := by
  obtain ⟨a, b, c, d, e, f, g, h⟩ := h
  exact ⟨a * 1 + b * 5 + c * 25 + d * 100 + e * 500 + f * 1000 + g * 5000,
    by rw [h]; push_cast; ring⟩

/-- C6 counterexample: the amount 3/2 is finite, at least the minimum
wager 1, at most the balance 100, and not representable from the chip
denominations, yet validateBet throws a RangeError (from building the dp
array with a fractional length) instead of returning the invalid chip
combination rejection. -/
theorem validateBet_denomination_counterexample :
    threeHalves = 3 / 2 ∧
    MIN_BET ≤ threeHalves ∧ threeHalves ≤ 100 ∧ ¬Representable threeHalves ∧
    validateBet (JSNum.fin threeHalves) 100 = Except.error JsErr.rangeError ∧
    validateBet (JSNum.fin threeHalves) 100 ≠
      Except.ok (BetCheck.invalid "Invalid chip combination") := by
  have heq : threeHalves = 3 / 2 := by
    unfold threeHalves
    rw [Rat.mk'_eq_divInt, Rat.divInt_eq_div]
    norm_num
  refine ⟨heq, by decide, by decide, ?_, rfl, fun h => nomatch h⟩
  intro h
  obtain ⟨n, hn⟩ := representable_is_nat h
  rw [heq] at hn
  field_simp at hn
  have hcast : (3 : ℕ) = n * 2 := by exact_mod_cast hn
  omega

theorem calculateHandValue_ace_maximal_witness :
    assignedTotal [mkCard "spades" "A", mkCard "hearts" "K"] [true, false] ≤ 21 ∧
      assignedTotal [mkCard "spades" "A", mkCard "hearts" "K"] [true, false] ≤
        calculateHandValue [mkCard "spades" "A", mkCard "hearts" "K"] :=
  ⟨by decide,
    (calculateHandValue_ace_maximal [mkCard "spades" "A", mkCard "hearts" "K"]).2.1
      [true, false] (by decide)⟩

theorem isValidChipCombination_of_one_le (q : ℚ) (h1 : 1 ≤ q) :
    isValidChipCombination q = Except.error JsErr.rangeError ∨
    isValidChipCombination q = Except.ok true := by
  unfold isValidChipCombination
  by_cases hc : q.den = 1 ∧ 0 ≤ q.num + 1 ∧ q.num + 1 < 2 ^ 32
  · right
    rw [if_pos hc]
    have hnum : 0 ≤ q.num := Rat.num_nonneg.mpr (le_trans zero_le_one h1)
    rw [if_pos hnum, chipCombinationTable_true]
  · left
    rw [if_neg hc]

/-- C6 amended: validateBet applies the four checks in source order and
reports the first failing reason, but the denomination check diverges from
the claim: for an amount between the minimum and the balance that is not a
natural number (hence not representable), building the dp array throws a
RangeError instead of returning the invalid-chip-combination rejection,
every natural-number amount in range below the array-length bound is
accepted (1 is a denomination, so every such amount is representable), and
consequently the invalid-chip-combination rejection is never returned at
all. -/
theorem validateBet_check_order (q balance : ℚ) :
    (validateBet JSNum.nan balance = Except.ok (BetCheck.invalid "Invalid bet amount format")) ∧
    (validateBet JSNum.posInf balance
      = Except.ok (BetCheck.invalid "Invalid bet amount format")) ∧
    (validateBet JSNum.negInf balance
      = Except.ok (BetCheck.invalid "Invalid bet amount format")) ∧
    (q < MIN_BET →
      validateBet (JSNum.fin q) balance = Except.ok (BetCheck.invalid "Bet must be at least $1")) ∧
    (MIN_BET ≤ q → balance < q →
      validateBet (JSNum.fin q) balance = Except.ok (BetCheck.invalid "Insufficient balance")) ∧
    (MIN_BET ≤ q → q ≤ balance → ¬Representable q →
      validateBet (JSNum.fin q) balance = Except.error JsErr.rangeError) ∧
    (∀ n : Nat, (n : ℚ) = q → MIN_BET ≤ q → q ≤ balance → (n : ℤ) + 1 < 2 ^ 32 →
      validateBet (JSNum.fin q) balance = Except.ok BetCheck.valid) ∧
    (∀ b : JSNum, validateBet b balance ≠ Except.ok (BetCheck.invalid "Invalid chip combination"))
    := by
  have hmin : MIN_BET = (1 : ℚ) := rfl
  refine ⟨rfl, rfl, rfl, ?_, ?_, ?_, ?_, ?_⟩
  · intro h
    simp only [validateBet, if_pos h]
  · intro h1 h2
    simp only [validateBet, if_neg (not_lt.mpr h1), if_pos h2]
  · intro h1 h2 h3
    have hden : ¬(q.den = 1 ∧ 0 ≤ q.num + 1 ∧ q.num + 1 < 2 ^ 32) := by
      rintro ⟨hd, -, -⟩
      have hq : (q.num : ℚ) = q := (Rat.den_eq_one_iff q).mp hd
      have hnn : 0 ≤ q.num := Rat.num_nonneg.mpr (le_trans zero_le_one (hmin ▸ h1))
      apply h3
      have hqn : q = ((q.num.toNat : ℕ) : ℚ) := by
        rw [← hq]
        exact_mod_cast (Int.toNat_of_nonneg hnn).symm
      rw [hqn]
      exact representable_of_nat _
    have hiv : isValidChipCombination q = Except.error JsErr.rangeError := by
      unfold isValidChipCombination
      rw [if_neg hden]
    simp only [validateBet, if_neg (not_lt.mpr h1), if_neg (not_lt.mpr h2), hiv]
  · intro n hn h1 h2 hbound
    have hden : q.den = 1 ∧ 0 ≤ q.num + 1 ∧ q.num + 1 < 2 ^ 32 := by
      rw [← hn]
      refine ⟨Rat.den_natCast n, ?_, ?_⟩ <;> rw [Rat.num_natCast] <;> omega
    have hiv : isValidChipCombination q = Except.ok true := by
      unfold isValidChipCombination
      rw [if_pos hden]
      have hnum : 0 ≤ q.num := by rw [← hn, Rat.num_natCast]; omega
      rw [if_pos hnum, chipCombinationTable_true]
    simp only [validateBet, if_neg (not_lt.mpr h1), if_neg (not_lt.mpr h2), hiv]
  · intro b
    cases b with
    | nan =>
        intro h
        injection h with h1
        injection h1 with h2
        exact absurd h2 (by decide)
    | posInf =>
        intro h
        injection h with h1
        injection h1 with h2
        exact absurd h2 (by decide)
    | negInf =>
        intro h
        injection h with h1
        injection h1 with h2
        exact absurd h2 (by decide)
    | fin q =>
        by_cases hlt : q < MIN_BET
        · intro h
          simp only [validateBet, if_pos hlt] at h
          injection h with h1
          injection h1 with h2
          exact absurd h2 (by decide)
        · by_cases hbal : balance < q
          · intro h
            simp only [validateBet, if_neg hlt, if_pos hbal] at h
            injection h with h1
            injection h1 with h2
            exact absurd h2 (by decide)
          · intro h
            have h1q : (1 : ℚ) ≤ q := by
              rw [← hmin]
              exact not_lt.mp hlt
            rcases isValidChipCombination_of_one_le q h1q with hiv | hiv
            · simp only [validateBet, if_neg hlt, if_neg hbal, hiv] at h
              exact nomatch h
            · simp only [validateBet, if_neg hlt, if_neg hbal, hiv] at h
              injection h with hx
              exact nomatch hx

theorem validateBet_check_order_witness :
    validateBet (JSNum.fin 5) 10 = Except.ok BetCheck.valid :=
  (validateBet_check_order 5 10).2.2.2.2.2.2.1 5 (by norm_num) (by norm_num [MIN_BET])
    (by norm_num) (by norm_num)

theorem setHidden_rank (c : Card) (b : Bool) : (setHidden c b).rank = c.rank := rfl

theorem setHidden_value (c : Card) (b : Bool) : (setHidden c b).value = c.value := rfl

theorem calculateHandValue_reveal (hand : List Card) :
    calculateHandValue (hand.map (fun c => setHidden c false)) = calculateHandValue hand := by
  have h : handBaseValue (hand.map (fun c => setHidden c false)) = handBaseValue hand := by
    induction hand with
    | nil => rfl
    | cons c cs ih =>
        simp only [List.map_cons, handBaseValue, setHidden_rank, setHidden_value, ih]
  simp [calculateHandValue, h]

theorem dealerDraw_spec : ∀ (deck hand : List Card), calculateHandValue hand ≤ 21 →
    ∃ drawn : List Card,
      (dealerDraw hand deck).1 = hand ++ drawn ∧
      (∀ i < drawn.length, calculateHandValue (hand ++ drawn.take i) < 17) ∧
      (17 ≤ calculateHandValue (dealerDraw hand deck).1 ∨ (dealerDraw hand deck).2.1 = []) ∧
      ((dealerDraw hand deck).2.2 = true ↔ 21 < calculateHandValue (dealerDraw hand deck).1) := by
  intro deck
  induction deck with
  | nil =>
      intro hand h
      refine ⟨[], by simp [dealerDraw], by simp, Or.inr (by simp [dealerDraw]), ?_⟩
      simp [dealerDraw]
      omega
  | cons c rest ih =>
      intro hand h
      by_cases hs : shouldHit (calculateHandValue hand) = true
      · by_cases hb : 21 < calculateHandValue (hand ++ [c])
        · have heq : dealerDraw hand (c :: rest) = (hand ++ [c], rest, true) := by
            simp [dealerDraw, hs, hb]
          refine ⟨[c], by simp [heq], ?_, Or.inl (by simp [heq]; omega), by simp [heq, hb]⟩
          intro i hi
          have hi0 : i = 0 := by simpa using hi
          subst hi0
          simp only [List.take_zero, List.append_nil]
          simpa [shouldHit] using hs
        · have h2 : calculateHandValue (hand ++ [c]) ≤ 21 := by omega
          have heq : dealerDraw hand (c :: rest) = dealerDraw (hand ++ [c]) rest := by
            simp [dealerDraw, hs, hb]
          obtain ⟨drawn, hd1, hd2, hd3, hd4⟩ := ih (hand ++ [c]) h2
          refine ⟨c :: drawn, ?_, ?_, ?_, ?_⟩
          · rw [heq, hd1]
            simp
          · intro i hi
            cases i with
            | zero =>
                simp only [List.take_zero, List.append_nil]
                simpa [shouldHit] using hs
            | succ j =>
                have hj : j < drawn.length := by simpa using hi
                have hval := hd2 j hj
                rw [List.take_succ_cons, ← List.singleton_append, ← List.append_assoc]
                exact hval
          · rw [heq]
            exact hd3
          · rw [heq]
            exact hd4
      · have heq : dealerDraw hand (c :: rest) = (hand, c :: rest, false) := by
          simp only [dealerDraw]
          rw [if_neg hs]
        have h17 : 17 ≤ calculateHandValue hand := by
          simp [shouldHit] at hs
          omega
        refine ⟨[], by simp [heq], by simp, Or.inl (by simp [heq]; omega), ?_⟩
        simp [heq]
        omega

/-- C8: the automated dealer turn reveals the concealed card, then draws
exactly while the dealer hand value is below 17 (each drawn card was
appended from a state with value below 17), stops once the value reaches
17 or the shoe runs out, and ends with status bust exactly when the final
value exceeds 21 and status stand exactly when it does not; the stored
dealer hand value equals the recomputed value of the final hand. Stated
for any state whose dealer hand has not already exceeded 21, which holds
for every dealt two-card hand. -/
theorem playDealerTurn_spec (gs : GameState)
    (hinit : calculateHandValue gs.dealer.hand ≤ 21) :
    ∃ drawn : List Card,
      (playDealerTurn gs).dealer.hand
        = gs.dealer.hand.map (fun c => setHidden c false) ++ drawn ∧
      (∀ i < drawn.length,
        calculateHandValue
          (gs.dealer.hand.map (fun c => setHidden c false) ++ drawn.take i) < 17) ∧
      (17 ≤ (playDealerTurn gs).dealer.handValue ∨ (playDealerTurn gs).deck = []) ∧
      ((playDealerTurn gs).dealer.status = "bust" ↔
        21 < (playDealerTurn gs).dealer.handValue) ∧
      ((playDealerTurn gs).dealer.status = "stand" ↔
        (playDealerTurn gs).dealer.handValue ≤ 21) ∧
      (playDealerTurn gs).dealer.handValue
        = calculateHandValue (playDealerTurn gs).dealer.hand := by
  have h1 : calculateHandValue (gs.dealer.hand.map (fun c => setHidden c false)) ≤ 21 := by
    rw [calculateHandValue_reveal]
    exact hinit
  obtain ⟨drawn, hd1, hd2, hd3, hd4⟩ :=
    dealerDraw_spec gs.deck (gs.dealer.hand.map (fun c => setHidden c false)) h1
  have hhand : (playDealerTurn gs).dealer.hand
      = (dealerDraw (gs.dealer.hand.map (fun c => setHidden c false)) gs.deck).1 := rfl
  have hdeck : (playDealerTurn gs).deck
      = (dealerDraw (gs.dealer.hand.map (fun c => setHidden c false)) gs.deck).2.1 := rfl
  have hval : (playDealerTurn gs).dealer.handValue
      = calculateHandValue
          (dealerDraw (gs.dealer.hand.map (fun c => setHidden c false)) gs.deck).1 := rfl
  have hstat : (playDealerTurn gs).dealer.status
      = (if calculateHandValue
            (dealerDraw (gs.dealer.hand.map (fun c => setHidden c false)) gs.deck).1 ≤ 21
          then "stand"
          else if (dealerDraw (gs.dealer.hand.map (fun c => setHidden c false)) gs.deck).2.2
            then "bust" else gs.dealer.status) := rfl
  refine ⟨drawn, ?_, hd2, ?_, ?_, ?_, ?_⟩
  · rw [hhand, hd1]
  · rw [hval, hdeck]
    exact hd3
  · rw [hstat, hval]
    by_cases hv : calculateHandValue
        (dealerDraw (gs.dealer.hand.map (fun c => setHidden c false)) gs.deck).1 ≤ 21
    · rw [if_pos hv]
      constructor
      · intro hfalse
        exact absurd hfalse (by decide)
      · intro hgt
        omega
    · rw [if_neg hv]
      have hflag : (dealerDraw (gs.dealer.hand.map
          (fun c => setHidden c false)) gs.deck).2.2 = true := hd4.mpr (by omega)
      rw [hflag, if_pos rfl]
      exact ⟨fun _ => by omega, fun _ => rfl⟩
  · rw [hstat, hval]
    by_cases hv : calculateHandValue
        (dealerDraw (gs.dealer.hand.map (fun c => setHidden c false)) gs.deck).1 ≤ 21
    · rw [if_pos hv]
      exact ⟨fun _ => hv, fun _ => rfl⟩
    · rw [if_neg hv]
      have hflag : (dealerDraw (gs.dealer.hand.map
          (fun c => setHidden c false)) gs.deck).2.2 = true := hd4.mpr (by omega)
      rw [hflag, if_pos rfl]
      constructor
      · intro hfalse
        exact absurd hfalse (by decide)
      · intro hle
        exact absurd hle hv
  · rw [hval, hhand]

theorem playDealerTurn_spec_witness :
    calculateHandValue gsW8.dealer.hand ≤ 21 ∧
      ∃ drawn : List Card,
        (playDealerTurn gsW8).dealer.hand
          = gsW8.dealer.hand.map (fun c => setHidden c false) ++ drawn :=
  ⟨by decide, Exists.imp (fun _ hd => hd.1) (playDealerTurn_spec gsW8 (by decide))⟩

theorem foldl_winnerEntry (dv : Nat) :
    ∀ (l : List Player) (acc : List String),
      l.foldl (fun acc p => acc ++ winnerEntry dv p) acc
        = acc ++ l.flatMap (winnerEntry dv) := by
  intro l
  induction l with
  | nil => intro acc; simp
  | cons p ps ih =>
      intro acc
      simp only [List.foldl_cons, List.flatMap_cons, ih, List.append_assoc]

theorem determineWinners_mem (gs : GameState) (x : String) :
    x ∈ (GameState.determineWinners gs).winners ↔
      ∃ p ∈ gs.players, p.id = x ∧ p.status ≠ "bust" ∧
        (21 < gs.dealer.handValue ∨ gs.dealer.handValue < p.handValue) := by
  have h : (GameState.determineWinners gs).winners
      = gs.players.flatMap (winnerEntry gs.dealer.handValue) := by
    simp only [GameState.determineWinners]
    rw [foldl_winnerEntry]
    simp
  rw [h, List.mem_flatMap]
  constructor
  · rintro ⟨p, hp, hx⟩
    refine ⟨p, hp, ?_⟩
    by_cases hb : p.status = "bust"
    · simp [winnerEntry, hb] at hx
    · by_cases hd : 21 < gs.dealer.handValue
      · simp [winnerEntry, hb, hd] at hx
        exact ⟨hx.symm, hb, Or.inl hd⟩
      · by_cases hv : gs.dealer.handValue < p.handValue
        · simp [winnerEntry, hb, hd, hv] at hx
          exact ⟨hx.symm, hb, Or.inr hv⟩
        · simp [winnerEntry, hb, hd, hv] at hx
  · rintro ⟨p, hp, hid, hb, hcase⟩
    refine ⟨p, hp, ?_⟩
    rcases hcase with hd | hv
    · simp [winnerEntry, hb, hd, hid]
    · by_cases hd : 21 < gs.dealer.handValue
      · simp [winnerEntry, hb, hd, hid]
      · simp [winnerEntry, hb, hd, hv, hid]

/-- C5: the winners list computed by GameState.determineWinners never
contains the id of a busted player (given the players carry distinct ids,
as seated players do), and when the dealer busts every non-busted player
is in the winners list while every busted player still is not. -/
theorem busted_player_never_wins (gs : GameState)
    (hids : (gs.players.map Player.id).Nodup) :
    (∀ p ∈ gs.players, p.status = "bust" →
        p.id ∉ (GameState.determineWinners gs).winners) ∧
    (21 < gs.dealer.handValue → ∀ p ∈ gs.players, p.status ≠ "bust" →
        p.id ∈ (GameState.determineWinners gs).winners) := by
  constructor
  · intro p hp hbust hmem
    obtain ⟨q, hq, hqid, hqb, -⟩ := (determineWinners_mem gs p.id).mp hmem
    have : q = p := List.inj_on_of_nodup_map hids hq hp hqid
    rw [this] at hqb
    exact hqb hbust
  · intro hd p hp hb
    exact (determineWinners_mem gs p.id).mpr ⟨p, hp, rfl, hb, Or.inl hd⟩

theorem busted_player_never_wins_witness :
    (gsC5.players.map Player.id).Nodup ∧
    ({ mkPlayer "a" "Alice" "s1" with status := "bust", handValue := 22 } ∈ gsC5.players) ∧
    "a" ∉ (GameState.determineWinners gsC5).winners ∧
    "b" ∈ (GameState.determineWinners gsC5).winners := by
  refine ⟨by decide, by decide, ?_, ?_⟩
  · exact (busted_player_never_wins gsC5 (by decide)).1
      { mkPlayer "a" "Alice" "s1" with status := "bust", handValue := 22 }
      (by decide) (by decide)
  · exact (busted_player_never_wins gsC5 (by decide)).2 (by decide)
      { mkPlayer "b" "Bob" "s2" with status := "stand", handValue := 20 }
      (by decide) (by decide)

theorem nextPlayer_fst (gs : GameState) :
    (gs.nextPlayer).1 = { gs with currentPlayerIndex := gs.currentPlayerIndex + 1 } := by
  simp only [GameState.nextPlayer]
  split <;> rfl

/-- C4 counterexample: after the first participant stands, the cursor in
the concrete state gsC4 lands on the seat holding a natural-21 participant
who cannot act, even though an eligible participant sits right after —
nextPlayer increments by one and never skips finished participants. -/
theorem cursor_no_skip_counterexample :
    (processStand gsC4 "a").currentPlayerIndex = 1 ∧
    (processStand gsC4 "a").getCurrentPlayer
      = some { mkPlayer "b" "Bob" "s2" with status := "blackjack", handValue := 21 } ∧
    ({ mkPlayer "b" "Bob" "s2" with
        status := "blackjack", handValue := 21 } : Player).canTakeAction = false ∧
    (∃ q ∈ (processStand gsC4 "a").players, q.canTakeAction = true) := by
  decide

/-- C4 amended: when a participant finishes the turn — standing, busting
on a hit, or auto-standing at exactly 21 — the cursor moves forward by
exactly one position, to the immediately following seat in order (or past
the end when the finisher sat last), regardless of whether the participant
there can still act; a hit that leaves the hand below 21 does not move the
cursor, and a hit from an empty shoe changes nothing. Finished
participants are only skipped by the separate advance loop of the initial
deal. -/
theorem action_cursor_advance (gs : GameState) (pid : String) :
    ((processStand gs pid).currentPlayerIndex = gs.currentPlayerIndex + 1) ∧
    (∀ c d2, dealCardFromDeck gs.deck = some (c, d2) →
      ∀ p, gs.getPlayer pid = some p →
        (((p.addCard c).status = "bust" ∨ (p.addCard c).handValue = 21) →
          (processHit gs pid).1.currentPlayerIndex = gs.currentPlayerIndex + 1) ∧
        ((p.addCard c).status ≠ "bust" → (p.addCard c).handValue ≠ 21 →
          (processHit gs pid).1.currentPlayerIndex = gs.currentPlayerIndex)) ∧
    (dealCardFromDeck gs.deck = none → (processHit gs pid).1 = gs) := by
  refine ⟨?_, ?_, ?_⟩
  · simp only [processStand]
    rw [nextPlayer_fst]
  · intro c d2 hdeal p hp
    constructor
    · intro hdone
      by_cases hb : (p.addCard c).status = "bust"
      · simp only [processHit, hdeal, hp]
        rw [if_pos hb, nextPlayer_fst]
      · have h21 : (p.addCard c).handValue = 21 := by tauto
        simp only [processHit, hdeal, hp]
        rw [if_neg hb, if_pos h21, nextPlayer_fst]
    · intro hb h21
      simp only [processHit, hdeal, hp]
      rw [if_neg hb, if_neg h21]
  · intro hdeal
    simp only [processHit, hdeal]

theorem action_cursor_advance_witness :
    (processStand gsC4 "a").currentPlayerIndex = gsC4.currentPlayerIndex + 1 ∧
    (processHit gsW4 "a").1.currentPlayerIndex = gsW4.currentPlayerIndex + 1 := by
  refine ⟨(action_cursor_advance gsC4 "a").1, ?_⟩
  have h := ((action_cursor_advance gsW4 "a").2.1
    { suit := "clubs", rank := "5", value := 5, hidden := false } [] rfl
    { mkPlayer "a" "Alice" "s1" with
        status := "playing", handValue := 19,
        currentHand := [{ suit := "hearts", rank := "10", value := 10, hidden := false },
                        { suit := "spades", rank := "9", value := 9, hidden := false }] }
    rfl).1
  exact h (by decide)

/-- C1: GameEngine.determineWinners records every settlement entry with a
betAmount of zero, because updateBalance clears player.currentBet before
the record is built; in the concrete settled round gsC1 the participant
wagered 100 and won, yet the recorded entry carries betAmount 0. -/
theorem settlement_records_zero_wager :
    gsC1.players.map Player.currentBet = [100] ∧
    (engineDetermineWinners gsC1).payouts.map
      (fun e => (e.playerId, e.betAmount, e.outcome)) = [("p1", 0, "win")] := by
  decide

/-- C3: in the concrete room roomC3 the automatic game start deals the
only participant a natural 21, so nobody can act and the round should move
straight to the dealer; but dealInitialCards leaves currentPlayerIndex at
players.length (here 1), while the trigger in handlePlaceBet only starts
the dealer turn when currentPlayerIndex equals -1 — so the trigger stays
false and nothing starts the dealer turn. -/
theorem all_blackjack_trigger_never_fires :
    (roomC3.startGame deckC3).2 = true ∧
    (roomC3.startGame deckC3).1.gameState.players.map Player.status = ["blackjack"] ∧
    (roomC3.startGame deckC3).1.gameState.areAllPlayersDone = true ∧
    (roomC3.startGame deckC3).1.gameState.getCurrentPlayer = none ∧
    (roomC3.startGame deckC3).1.gameState.currentPlayerIndex = 1 ∧
    allBlackjackDealerTrigger (roomC3.startGame deckC3).1.gameState = false := by
  decide

/-- C9 counterexample: in the concrete room roomC9 the betting phase has
started (the session is Wagering, not Idle), yet seating a new participant
succeeds and the room then holds two participants — Room.addPlayer never
consults gameState.status and startBettingPhase never sets
isGameInProgress. -/
theorem join_during_betting_counterexample :
    (Room.startBettingPhase roomC9).2 = true ∧
    (Room.startBettingPhase roomC9).1.gameState.status = "betting" ∧
    ((Room.startBettingPhase roomC9).1.addPlayer (mkPlayer "p2" "Bob" "s2")).isSome = true ∧
    (((Room.startBettingPhase roomC9).1.addPlayer (mkPlayer "p2" "Bob" "s2")).map
      (fun r => r.gameState.players.length)) = some 2 := by
  decide

/-- C9 amended: seating a new participant fails exactly when the room is
at capacity, a dealt round is in progress (the isGameInProgress flag, set
only by startGame), or the participant id is already present; the
Wagering phase does not block seating — startBettingPhase only sets
gameState.status to betting, leaves isGameInProgress false and the seats
unchanged, so a fresh participant is still admitted during betting. -/
theorem addPlayer_characterization (r : Room) (p : Player) :
    (Room.addPlayer r p = none ↔
      (r.maxPlayers ≤ r.gameState.players.length ∨ r.isGameInProgress = true ∨
        (r.gameState.getPlayer p.id).isSome = true)) ∧
    ((Room.startBettingPhase r).2 = true →
      (Room.startBettingPhase r).1.isGameInProgress = false ∧
      (Room.startBettingPhase r).1.gameState.status = "betting" ∧
      (Room.startBettingPhase r).1.gameState.players = r.gameState.players ∧
      (Room.startBettingPhase r).1.maxPlayers = r.maxPlayers) ∧
    ((Room.startBettingPhase r).2 = true →
      r.gameState.players.length < r.maxPlayers →
      (r.gameState.getPlayer p.id).isSome = false →
      ((Room.startBettingPhase r).1.addPlayer p).isSome = true) := by
  have hbet : (Room.startBettingPhase r).2 = true →
      (Room.startBettingPhase r).1
        = { r with gameState := { r.gameState with status := "betting" } } ∧
      r.isGameInProgress = false ∧ r.gameState.players.length ≠ 0 := by
    intro h
    unfold Room.startBettingPhase at h ⊢
    by_cases h0 : r.gameState.players.length = 0
    · rw [if_pos h0] at h
      simp at h
    · rw [if_neg h0] at h ⊢
      by_cases h1 : r.isGameInProgress
      · rw [if_pos h1] at h
        simp at h
      · rw [if_neg h1] at h ⊢
        exact ⟨rfl, by simpa using h1, h0⟩
  refine ⟨?_, ?_, ?_⟩
  · unfold Room.addPlayer
    by_cases h1 : r.maxPlayers ≤ r.gameState.players.length
    · rw [if_pos h1]
      simp [h1]
    · rw [if_neg h1]
      by_cases h2 : r.isGameInProgress
      · rw [if_pos h2]
        simp [h1, h2]
      · rw [if_neg h2]
        by_cases h3 : (r.gameState.getPlayer p.id).isSome = true
        · rw [if_pos h3]
          simp [h1, h2, h3]
        · rw [if_neg h3]
          simp [h1, h2, h3]
  · intro h
    obtain ⟨heq, hng, -⟩ := hbet h
    rw [heq]
    exact ⟨hng, rfl, rfl, rfl⟩
  · intro h hcap hnew
    obtain ⟨heq, hng, -⟩ := hbet h
    rw [heq]
    unfold Room.addPlayer
    have hget : (({ r with gameState :=
        { r.gameState with status := "betting" } } : Room).gameState.getPlayer p.id).isSome
          = false := by
      simpa [GameState.getPlayer] using hnew
    rw [if_neg (by simpa using Nat.not_le.mpr hcap), if_neg (by simpa using hng),
      if_neg (by simp [hget])]
    rfl

theorem addPlayer_characterization_witness :
    ((Room.startBettingPhase roomC9).1.addPlayer (mkPlayer "p2" "Bob" "s2")).isSome = true :=
  (addPlayer_characterization roomC9 (mkPlayer "p2" "Bob" "s2")).2.2
    (by decide) (by decide) (by decide)

/-- C10: in the concrete scenario the player p1 is seated in room1 and
tracked there; calling addPlayerToRoom again for the same room reaches the
reconnection branch, which reads the const room before its declaration and
therefore throws a ReferenceError instead of returning a result object —
the state, however, is left unchanged. -/
theorem rejoin_same_room_reference_error :
    mapGet mgrC10b.playerRoomMap "p1" = some "room1" ∧
    (mapGet mgrC10b.rooms "room1").map
      (fun r => r.gameState.players.map Player.id) = some ["p1"] ∧
    mgrC10b.addPlayerToRoom "room1" (mkPlayer "p1" "Alice" "s1")
      = Except.error JsErr.referenceError ∧
    applyOp mgrC10b (RegOp.seat "room1" (mkPlayer "p1" "Alice" "s1")) = mgrC10b := by
  exact ⟨rfl, rfl, rfl, rfl⟩

theorem mapGet_mapDelete {α : Type} (k k' : String) :
    ∀ m : List (String × α),
      mapGet (mapDelete m k) k' = if k' = k then none else mapGet m k' := by
  intro m
  induction m with
  | nil => by_cases h : k' = k <;> simp [mapGet, mapDelete, h]
  | cons e t ih =>
      by_cases he : e.1 = k
      · rw [show mapDelete (e :: t) k = mapDelete t k by simp [mapDelete, he], ih]
        by_cases hk : k' = k
        · simp [hk]
        · have he' : ¬(e.1 = k') := fun hh => hk (he ▸ hh.symm ▸ rfl)
          simp [hk, mapGet, he']
  -- The remaining case keeps the head entry.
      · rw [show mapDelete (e :: t) k = e :: mapDelete t k by simp [mapDelete, he]]
        by_cases hc : e.1 = k'
        · have hk : ¬(k' = k) := fun hh => he (hh ▸ hc)
          simp [mapGet, hc, hk]
        · rw [show mapGet (e :: mapDelete t k) k' = mapGet (mapDelete t k) k' by
            simp [mapGet, hc], ih]
          by_cases hk : k' = k <;> simp [hk, mapGet, hc]

theorem mapGet_mapSet {α : Type} (m : List (String × α)) (k k' : String) (v : α) :
    mapGet (mapSet m k v) k' = if k' = k then some v else mapGet m k' := by
  by_cases h : k' = k
  · simp [mapSet, mapGet, h]
  · have h2 : ¬((k : String) = k') := fun hh => h hh.symm
    simp [mapSet, mapGet, h2, h, mapGet_mapDelete]

theorem mapGet_foldl_delete (k : String) :
    ∀ (players : List Player) (mp : List (String × String)),
      mapGet (players.foldl (fun mp p => mapDelete mp p.id) mp) k
        = if players.any (fun p => p.id = k) then none else mapGet mp k := by
  intro players
  induction players with
  | nil => intro mp; simp
  | cons q ps ih =>
      intro mp
      rw [List.foldl_cons, ih]
      by_cases hq : q.id = k
      · by_cases hps : ps.any (fun p => p.id = k) = true
        · simp [hps, hq]
        · simp only [hps, if_false, Bool.false_eq_true]
          rw [mapGet_mapDelete, if_pos hq.symm]
          simp [hq]
      · by_cases hps : ps.any (fun p => p.id = k) = true
        · simp [hps, hq]
        · simp only [hps, if_false, Bool.false_eq_true]
          rw [mapGet_mapDelete, if_neg (fun hh => hq hh.symm)]
          simp [hq, hps]

theorem removeFirstById_sublist (pid : String) :
    ∀ l : List Player, List.Sublist (removeFirstById l pid) l := by
  intro l
  induction l with
  | nil => simp [removeFirstById]
  | cons r rs ih =>
      by_cases hr : r.id = pid
      · rw [show removeFirstById (r :: rs) pid = rs by simp [removeFirstById, hr]]
        exact List.sublist_cons_self r rs
      · rw [show removeFirstById (r :: rs) pid = r :: removeFirstById rs pid by
          simp [removeFirstById, hr]]
        exact List.Sublist.cons₂ r ih

theorem mem_removeFirstById {pid : String} {q : Player} (hne : q.id ≠ pid) :
    ∀ {l : List Player}, q ∈ l → q ∈ removeFirstById l pid := by
  intro l
  induction l with
  | nil => intro h; cases h
  | cons r rs ih =>
      intro hq
      by_cases hr : r.id = pid
      · rw [show removeFirstById (r :: rs) pid = rs by simp [removeFirstById, hr]]
        rcases List.mem_cons.mp hq with rfl | h
        · exact absurd hr hne
        · exact h
      · rw [show removeFirstById (r :: rs) pid = r :: removeFirstById rs pid by
          simp [removeFirstById, hr]]
        rcases List.mem_cons.mp hq with rfl | h
        · exact List.mem_cons_self q _
        · exact List.mem_cons_of_mem r (ih h)

theorem not_pid_of_mem_removeFirstById {pid : String} :
    ∀ {l : List Player}, (l.map Player.id).Nodup →
      ∀ {q : Player}, q ∈ removeFirstById l pid → q.id ≠ pid := by
  intro l
  induction l with
  | nil => intro _ q hq; cases hq
  | cons r rs ih =>
      intro hnd q hq
      rw [List.map_cons, List.nodup_cons] at hnd
      by_cases hr : r.id = pid
      · rw [show removeFirstById (r :: rs) pid = rs by simp [removeFirstById, hr]] at hq
        intro hqp
        exact hnd.1 (hr ▸ hqp ▸ List.mem_map_of_mem Player.id hq)
      · rw [show removeFirstById (r :: rs) pid = r :: removeFirstById rs pid by
          simp [removeFirstById, hr]] at hq
        rcases List.mem_cons.mp hq with rfl | h
        · exact hr
        · exact ih hnd.2 h

theorem getPlayer_isSome_iff (gs : GameState) (pid : String) :
    (gs.getPlayer pid).isSome = true ↔ ∃ p ∈ gs.players, p.id = pid := by
  unfold GameState.getPlayer
  rw [List.find?_isSome]
  simp

theorem room_addPlayer_some {r : Room} {p : Player} {r1 : Room}
    (h : r.addPlayer p = some r1) :
    r1.gameState.players = r.gameState.players ++ [p] ∧
    (∀ q ∈ r.gameState.players, q.id ≠ p.id) := by
  unfold Room.addPlayer at h
  by_cases h1 : r.maxPlayers ≤ r.gameState.players.length
  · rw [if_pos h1] at h; cases h
  · rw [if_neg h1] at h
    by_cases h2 : r.isGameInProgress
    · rw [if_pos h2] at h; cases h
    · rw [if_neg h2] at h
      by_cases h3 : (r.gameState.getPlayer p.id).isSome = true
      · rw [if_pos h3] at h; cases h
      · rw [if_neg h3] at h
        injection h with h
        constructor
        · rw [← h]; rfl
        · intro q hq hid
          exact h3 ((getPlayer_isSome_iff r.gameState p.id).mpr ⟨q, hq, hid⟩)

theorem gs_removePlayer_spec (gs : GameState) (pid : String) :
    ((gs.removePlayer pid).2 = true ↔ ∃ p ∈ gs.players, p.id = pid) ∧
    ((gs.removePlayer pid).2 = true →
      (gs.removePlayer pid).1.players = removeFirstById gs.players pid) ∧
    ((gs.removePlayer pid).2 = false → (gs.removePlayer pid).1 = gs) := by
  unfold GameState.removePlayer
  by_cases h : (gs.players.find? (fun p => p.id = pid)).isSome = true
  · rw [if_pos h]
    refine ⟨⟨fun _ => ?_, fun _ => rfl⟩, fun _ => rfl, fun hf => by cases hf⟩
    rw [List.find?_isSome] at h
    simpa using h
  · rw [if_neg h]
    refine ⟨⟨fun hf => (by cases hf), fun hex => ?_⟩, fun hf => (by cases hf), fun _ => rfl⟩
    rw [List.find?_isSome] at h
    exact absurd (by simpa using hex) h

theorem room_resetGame_players (r : Room) (d : List Card)
    (h : r.gameState.players = []) : (r.resetGame d).gameState.players = [] := by
  unfold Room.resetGame
  rw [h]
  rfl

theorem room_removePlayer_spec (r : Room) (pid : String) (d : List Card) :
    ((r.removePlayer pid d).2 = true ↔ ∃ p ∈ r.gameState.players, p.id = pid) ∧
    ((r.removePlayer pid d).2 = true →
      (r.removePlayer pid d).1.gameState.players
        = removeFirstById r.gameState.players pid) ∧
    ((r.removePlayer pid d).2 = false → (r.removePlayer pid d).1 = r) := by
  obtain ⟨hiff, hplayers, hkeep⟩ := gs_removePlayer_spec r.gameState pid
  unfold Room.removePlayer
  by_cases hflag : (r.gameState.removePlayer pid).2 = true
  · rw [if_pos hflag]
    by_cases hempty : ((r.gameState.removePlayer pid).1.players.length = 0 ∧
        r.isGameInProgress = true)
    · rw [if_pos hempty]
      refine ⟨⟨fun _ => hiff.mp hflag, fun _ => rfl⟩, fun _ => ?_, fun hf => by cases hf⟩
      rw [room_resetGame_players _ _ (List.length_eq_zero.mp hempty.1)]
      rw [hplayers hflag] at hempty
      exact (List.length_eq_zero.mp hempty.1).symm
    · rw [if_neg hempty]
      exact ⟨⟨fun _ => hiff.mp hflag, fun _ => rfl⟩, fun _ => hplayers hflag,
        fun hf => by cases hf⟩
  · rw [if_neg hflag]
    have hf : (r.gameState.removePlayer pid).2 = false := by
      revert hflag; cases (r.gameState.removePlayer pid).2 <;> simp
    refine ⟨⟨fun hh => (by cases hh), fun hex => absurd (hiff.mpr hex) hflag⟩,
      fun hh => (by cases hh), fun _ => rfl⟩

theorem regInv_init (a b : Nat) : RegInv (mkRoomManager a b) := by
  refine ⟨?_, ?_, ?_⟩
  · intro pid rid h
    cases h
  · intro rid room h
    cases h
  · intro rid room h
    cases h

theorem regInv_create {m : RoomManager} (hinv : RegInv m) (roomId roomName : String)
    (deck : List Card) : RegInv (m.createRoom roomId roomName deck).1 := by
  obtain ⟨h1, h2, h3⟩ := hinv
  unfold RoomManager.createRoom
  cases hm : mapGet m.rooms roomId with
  | some r => exact ⟨h1, h2, h3⟩
  | none =>
      by_cases hcap : m.maxRooms ≤ m.rooms.length
      · rw [if_pos hcap]
        exact ⟨h1, h2, h3⟩
      · rw [if_neg hcap]
        refine ⟨?_, ?_, ?_⟩
        · intro pid rid hmap
          obtain ⟨room, hr, hp⟩ := h1 pid rid hmap
          refine ⟨room, ?_, hp⟩
          rw [mapGet_mapSet]
          by_cases hrid : rid = roomId
          · rw [hrid, hm] at hr
            cases hr
          · rw [if_neg hrid]
            exact hr
        · intro rid room hroom p hp
          rw [mapGet_mapSet] at hroom
          by_cases hrid : rid = roomId
          · rw [if_pos hrid] at hroom
            injection hroom with hroom
            rw [← hroom] at hp
            simp [mkRoom, mkGameState] at hp
          · rw [if_neg hrid] at hroom
            exact h2 rid room hroom p hp
        · intro rid room hroom
          rw [mapGet_mapSet] at hroom
          by_cases hrid : rid = roomId
          · rw [if_pos hrid] at hroom
            injection hroom with hroom
            rw [← hroom]
            simp [mkRoom, mkGameState]
          · rw [if_neg hrid] at hroom
            exact h3 rid room hroom

theorem regInv_drop {m : RoomManager} (hinv : RegInv m) (roomId : String) :
    RegInv (m.deleteRoom roomId).1 := by
  obtain ⟨h1, h2, h3⟩ := hinv
  unfold RoomManager.deleteRoom
  cases hm : mapGet m.rooms roomId with
  | none => exact ⟨h1, h2, h3⟩
  | some room =>
      refine ⟨?_, ?_, ?_⟩
      · intro pid rid hmap
        rw [mapGet_foldl_delete] at hmap
        by_cases hany : room.gameState.players.any (fun p => p.id = pid) = true
        · rw [if_pos hany] at hmap
          cases hmap
        · rw [if_neg hany] at hmap
          obtain ⟨room2, hr, q, hq, hqid⟩ := h1 pid rid hmap
          by_cases hrid : rid = roomId
          · exfalso
            rw [hrid, hm] at hr
            injection hr with hr
            apply hany
            rw [List.any_eq_true]
            exact ⟨q, hr ▸ hq, by simpa using hqid⟩
          · refine ⟨room2, ?_, q, hq, hqid⟩
            rw [mapGet_mapDelete, if_neg hrid]
            exact hr
      · intro rid room2 hroom p hp
        rw [mapGet_mapDelete] at hroom
        by_cases hrid : rid = roomId
        · rw [if_pos hrid] at hroom
          cases hroom
        · rw [if_neg hrid] at hroom
          rw [mapGet_foldl_delete]
          by_cases hany : room.gameState.players.any (fun q => q.id = p.id) = true
          · exfalso
            rw [List.any_eq_true] at hany
            obtain ⟨s, hs, hsid⟩ := hany
            have hsid2 : s.id = p.id := by simpa using hsid
            have hmap1 := h2 roomId room hm s hs
            have hmap2 := h2 rid room2 hroom p hp
            rw [hsid2, hmap2] at hmap1
            injection hmap1 with hmap1
            exact hrid hmap1
          · rw [if_neg hany]
            exact h2 rid room2 hroom p hp
      · intro rid room2 hroom
        rw [mapGet_mapDelete] at hroom
        by_cases hrid : rid = roomId
        · rw [if_pos hrid] at hroom
          cases hroom
        · rw [if_neg hrid] at hroom
          exact h3 rid room2 hroom

theorem regInv_unseat {m : RoomManager} (hinv : RegInv m) (roomId pid : String)
    (d : List Card) : RegInv (m.removePlayerFromRoom roomId pid d).1 := by
  obtain ⟨h1, h2, h3⟩ := hinv
  unfold RoomManager.removePlayerFromRoom
  by_cases hr0 : roomId = ""
  · rw [if_pos hr0]
    exact ⟨h1, h2, h3⟩
  · rw [if_neg hr0]
    by_cases hp0 : pid = ""
    · rw [if_pos hp0]
      exact ⟨h1, h2, h3⟩
    · rw [if_neg hp0]
      cases hm : mapGet m.rooms roomId with
      | none => exact ⟨h1, h2, h3⟩
      | some room =>
          dsimp only
          obtain ⟨hiff, hplayers, hkeep⟩ := room_removePlayer_spec room pid d
          by_cases hflag : (room.removePlayer pid d).2 = true
          · rw [if_pos hflag]
            have hnd : (room.gameState.players.map Player.id).Nodup := h3 roomId room hm
            have hps : (room.removePlayer pid d).1.gameState.players
                = removeFirstById room.gameState.players pid := hplayers hflag
            refine ⟨?_, ?_, ?_⟩
            · intro pid2 rid hmap
              rw [mapGet_mapDelete] at hmap
              by_cases hp2 : pid2 = pid
              · rw [if_pos hp2] at hmap
                cases hmap
              · rw [if_neg hp2] at hmap
                obtain ⟨room2, hr, q, hq, hqid⟩ := h1 pid2 rid hmap
                by_cases hrr : rid = roomId
                · rw [hrr, hm] at hr
                  injection hr with hr
                  refine ⟨(room.removePlayer pid d).1, ?_, q, ?_, hqid⟩
                  · rw [hrr, mapGet_mapSet, if_pos rfl]
                  · rw [hps]
                    exact mem_removeFirstById (by rw [hqid]; exact hp2) (hr ▸ hq)
                · refine ⟨room2, ?_, q, hq, hqid⟩
                  rw [mapGet_mapSet, if_neg hrr]
                  exact hr
            · intro rid room2 hroom q hq
              rw [mapGet_mapSet] at hroom
              by_cases hrr : rid = roomId
              · rw [if_pos hrr] at hroom
                injection hroom with hroom
                rw [← hroom, hps] at hq
                have hqne : q.id ≠ pid := not_pid_of_mem_removeFirstById hnd hq
                rw [mapGet_mapDelete, if_neg hqne, hrr]
                exact h2 roomId room hm q
                  ((removeFirstById_sublist pid room.gameState.players).subset hq)
              · rw [if_neg hrr] at hroom
                have hold := h2 rid room2 hroom q hq
                rw [mapGet_mapDelete]
                by_cases hqp : q.id = pid
                · exfalso
                  obtain ⟨s, hs, hsid⟩ := hiff.mp hflag
                  have m1 := h2 roomId room hm s hs
                  rw [hsid] at m1
                  rw [hqp, m1] at hold
                  injection hold with hold
                  exact hrr hold.symm
                · rw [if_neg hqp]
                  exact hold
            · intro rid room2 hroom
              rw [mapGet_mapSet] at hroom
              by_cases hrr : rid = roomId
              · rw [if_pos hrr] at hroom
                injection hroom with hroom
                rw [← hroom, hps]
                exact List.Nodup.sublist
                  (List.Sublist.map Player.id (removeFirstById_sublist pid _)) hnd
              · rw [if_neg hrr] at hroom
                exact h3 rid room2 hroom
          · rw [if_neg hflag]
            exact ⟨h1, h2, h3⟩

theorem initPlayerBalance_id (p : Player) : (initPlayerBalance p).id = p.id := rfl

theorem regInv_seat {m : RoomManager} (hinv : RegInv m) (roomId : String) (p : Player) :
    RegInv (applyOp m (RegOp.seat roomId p)) := by
  obtain ⟨h1, h2, h3⟩ := hinv
  show RegInv (match m.addPlayerToRoom roomId p with
    | Except.ok r => r.1
    | Except.error _ => m)
  unfold RoomManager.addPlayerToRoom
  by_cases h0 : roomId = ""
  · rw [if_pos h0]
    exact ⟨h1, h2, h3⟩
  · rw [if_neg h0]
    by_cases hpid0 : p.id = ""
    · rw [if_pos hpid0]
      exact ⟨h1, h2, h3⟩
    · rw [if_neg hpid0]
      cases hmap : mapGet m.playerRoomMap p.id with
      | some cur =>
          dsimp only
          by_cases hne : cur ≠ roomId
          · rw [if_pos hne]
            exact ⟨h1, h2, h3⟩
          · rw [if_neg hne]
            exact ⟨h1, h2, h3⟩
      | none =>
          dsimp only
          cases hroom : mapGet m.rooms roomId with
          | none => exact ⟨h1, h2, h3⟩
          | some room =>
              dsimp only
              cases hadd : room.addPlayer (if p.balance = 0 then initPlayerBalance p else p)
                with
              | none => exact ⟨h1, h2, h3⟩
              | some room1 =>
                  dsimp only
                  obtain ⟨hps, hnew⟩ := room_addPlayer_some hadd
                  have hp1id : (if p.balance = 0 then initPlayerBalance p else p).id = p.id
                      := by
                    by_cases hb : p.balance = 0 <;> simp [initPlayerBalance, hb]
                  refine ⟨?_, ?_, ?_⟩
                  · intro pid rid hm2
                    rw [mapGet_mapSet] at hm2
                    by_cases hpp : pid = (if p.balance = 0 then initPlayerBalance p else p).id
                    · rw [if_pos hpp] at hm2
                      injection hm2 with hm2
                      refine ⟨room1, ?_, (if p.balance = 0 then initPlayerBalance p else p),
                        ?_, hpp.symm⟩
                      · rw [← hm2, mapGet_mapSet, if_pos rfl]
                      · rw [hps]
                        exact List.mem_append_right _ (List.mem_singleton.mpr rfl)
                    · rw [if_neg hpp] at hm2
                      obtain ⟨room2, hr2, q, hq, hqid⟩ := h1 pid rid hm2
                      by_cases hrr : rid = roomId
                      · rw [hrr, hroom] at hr2
                        injection hr2 with hr2
                        refine ⟨room1, ?_, q, ?_, hqid⟩
                        · rw [hrr, mapGet_mapSet, if_pos rfl]
                        · rw [hps]
                          exact List.mem_append_left _ (hr2 ▸ hq)
                      · refine ⟨room2, ?_, q, hq, hqid⟩
                        rw [mapGet_mapSet, if_neg hrr]
                        exact hr2
                  · intro rid room2 hr2 q hq
                    rw [mapGet_mapSet] at hr2
                    by_cases hrr : rid = roomId
                    · rw [if_pos hrr] at hr2
                      injection hr2 with hr2
                      rw [← hr2, hps] at hq
                      rcases List.mem_append.mp hq with hq | hq
                      · have hold := h2 roomId room hroom q hq
                        rw [mapGet_mapSet, if_neg (fun hh => hnew q hq hh), hrr]
                        exact hold
                      · have hq1 : q = (if p.balance = 0 then initPlayerBalance p else p) :=
                          List.mem_singleton.mp hq
                        rw [hq1, mapGet_mapSet, if_pos rfl, hrr]
                    · rw [if_neg hrr] at hr2
                      have hold := h2 rid room2 hr2 q hq
                      rw [mapGet_mapSet]
                      by_cases hqq : q.id = (if p.balance = 0 then initPlayerBalance p else p).id
                      · exfalso
                        rw [hqq, hp1id, hmap] at hold
                        cases hold
                      · rw [if_neg hqq]
                        exact hold
                  · intro rid room2 hr2
                    rw [mapGet_mapSet] at hr2
                    by_cases hrr : rid = roomId
                    · rw [if_pos hrr] at hr2
                      injection hr2 with hr2
                      rw [← hr2, hps, List.map_append, List.nodup_append]
                      refine ⟨h3 roomId room hroom, List.nodup_singleton _, ?_⟩
                      intro a ha hb
                      rw [List.map_singleton, List.mem_singleton] at hb
                      obtain ⟨q, hq, hqid⟩ := List.mem_map.mp ha
                      exact hnew q hq (hqid.trans hb)
                    · rw [if_neg hrr] at hr2
                      exact h3 rid room2 hr2

theorem regInv_applyOp {m : RoomManager} (hinv : RegInv m) (op : RegOp) :
    RegInv (applyOp m op) := by
  cases op with
  | create roomId roomName deck => exact regInv_create hinv roomId roomName deck
  | seat roomId p => exact regInv_seat hinv roomId p
  | unseat roomId pid d => exact regInv_unseat hinv roomId pid d
  | drop roomId => exact regInv_drop hinv roomId

theorem regInv_applyOps (ops : List RegOp) :
    ∀ m : RoomManager, RegInv m → RegInv (applyOps m ops) := by
  induction ops with
  | nil => intro m h; exact h
  | cons op t ih =>
      intro m h
      rw [show applyOps m (op :: t) = applyOps (applyOp m op) t from rfl]
      exact ih (applyOp m op) (regInv_applyOp h op)

/-- C2: across every sequence of registry operations from a fresh manager
— createRoom, addPlayerToRoom, removePlayerFromRoom, deleteRoom, over any
number of rooms — the tracking map binds a participant id to a room id
exactly when that participant is seated in that room, and a participant is
never seated in two distinct rooms at once. -/
theorem registry_exclusivity (maxR maxP : Nat) (ops : List RegOp) :
    (∀ pid rid,
      mapGet (applyOps (mkRoomManager maxR maxP) ops).playerRoomMap pid = some rid ↔
        seatedIn (applyOps (mkRoomManager maxR maxP) ops) pid rid) ∧
    (∀ pid r1 r2, seatedIn (applyOps (mkRoomManager maxR maxP) ops) pid r1 →
        seatedIn (applyOps (mkRoomManager maxR maxP) ops) pid r2 → r1 = r2) := by
  obtain ⟨h1, h2, h3⟩ :=
    regInv_applyOps ops (mkRoomManager maxR maxP) (regInv_init maxR maxP)
  constructor
  · intro pid rid
    constructor
    · intro h
      exact h1 pid rid h
    · rintro ⟨room, hr, q, hq, hqid⟩
      have hmem := h2 rid room hr q hq
      rw [hqid] at hmem
      exact hmem
  · intro pid r1 r2 hs1 hs2
    obtain ⟨room1, hr1, q1, hq1, hid1⟩ := hs1
    obtain ⟨room2, hr2, q2, hq2, hid2⟩ := hs2
    have m1 := h2 r1 room1 hr1 q1 hq1
    have m2 := h2 r2 room2 hr2 q2 hq2
    rw [hid1] at m1
    rw [hid2, m1] at m2
    injection m2

theorem registry_exclusivity_witness :
    mapGet (applyOps (mkRoomManager 10 6) opsC2).playerRoomMap "p1" = some "r1" :=
  ((registry_exclusivity 10 6 opsC2).1 "p1" "r1").mpr
    (by
      refine ⟨_, rfl, { mkPlayer "p1" "Alice" "s1" with balance := 1000 }, ?_, rfl⟩
      decide)
